import Mathlib

/-!
Verification development for the question-generation core of the tg_anki_app
repository (services/dedupe.py, services/qa/utils.py, services/qa/clients.py,
services/qa/agents.py, services/qa/pipeline.py, worker/job_runner.py).

Modelling conventions (shallow embedding of the Python sources):
* Python strings are Lean `String`s; `str.lower`, `str.strip`, the regex
  substitutions `\s+ -> " "` and character-class deletions used by the code
  are modelled character-by-character below.  `str.lower` is modelled on the
  ASCII and Cyrillic ranges, which covers every character the code itself
  compares against; Python's whitespace class is modelled by the six ASCII
  whitespace characters.
* Python floats produced by the two divisions in the code (Jaccard ratios and
  the dedupe drop rate) are modelled as rationals.  For the thresholds 0.85
  and 0.9 and the small set sizes involved, double rounding can never flip
  a comparison against the exact rational value, so the models agree.
* The MD5 token hash used by `simhash` is kept abstract as a parameter
  `md5 : String -> Nat`: every theorem below about `dedupe_questions` is
  proved for all hash functions, hence in particular for MD5.  Closed
  evaluation theorems instantiate it with an explicit function; in each of
  those the result is hash independent (the inputs involved are either
  singletons or items with equal normalised text, whose fingerprints always
  collide at Hamming distance 0).
* Loosely-typed dict items are modelled by records whose optional fields
  cover the value shapes the code actually branches on (absent / string /
  list of strings / int).
-/

namespace TgAnki

/-- Python whitespace (the `\s` class restricted to ASCII, which is what the
normalised texts handled by this code contain). -/
def isPyWs (c : Char) : Bool :=
  c == ' ' || c == '\t' || c == '\n' || c == '\r' || c == Char.ofNat 11 || c == Char.ofNat 12

/-- Model of Python `str.lower` on a single character: ASCII `A`-`Z` and the
Cyrillic capitals (`А`-`Я` and `Ё`) are lowered, everything else is kept. -/
def pyLowerChar (c : Char) : Char :=
  if 'A' ≤ c ∧ c ≤ 'Z' then Char.ofNat (c.toNat + 32)
  else if c = 'Ё' then 'ё'
  else if 'А' ≤ c ∧ c ≤ 'Я' then Char.ofNat (c.toNat + 32)
  else c

/-- Model of Python `str.lower`. -/
def pyLower (s : String) : String :=
  String.mk (s.toList.map pyLowerChar)

/-- Model of Python `str.strip()` (strip whitespace from both ends). -/
def pyStrip (s : String) : String :=
  String.mk (((s.toList.dropWhile (isPyWs ·)).reverse.dropWhile (isPyWs ·)).reverse)

/-- One pass of the regex substitution `\s+ -> " "`: the flag records whether
the previous character belonged to a whitespace run that was already
replaced. -/
def collapseWsAux : Bool → List Char → List Char
  | _, [] => []
  | inRun, c :: rest =>
    if isPyWs c then
      if inRun then collapseWsAux true rest else ' ' :: collapseWsAux true rest
    else c :: collapseWsAux false rest

/-- Model of `re.sub(r"\s+", " ", s)`. -/
def pyCollapseWs (s : String) : String :=
  String.mk (collapseWsAux false s.toList)

/-- Model of Python `str.split()` (split on whitespace runs, dropping empty
pieces).  The accumulator holds the current word reversed. -/
def pySplitAux : List Char → List Char → List String
  | [], cur => if cur = [] then [] else [String.mk cur.reverse]
  | c :: rest, cur =>
    if isPyWs c then
      if cur = [] then pySplitAux rest []
      else String.mk cur.reverse :: pySplitAux rest []
    else pySplitAux rest (c :: cur)

/-- Model of Python `str.split()`. -/
def pySplit (s : String) : List String :=
  pySplitAux s.toList []

/-- The characters kept by `dedupe.normalize`'s final substitution
`[^a-z0-9\s] -> ""` (besides whitespace). -/
def isKeepChar (c : Char) : Bool :=
  decide (('a' ≤ c ∧ c ≤ 'z') ∨ ('0' ≤ c ∧ c ≤ '9'))

/-- `app/services/dedupe.py`, `normalize`: lowercase, strip, collapse
whitespace runs to single spaces, then delete every character outside
`a`-`z`, `0`-`9` and whitespace. -/
def normalize (text : String) : String :=
  let t := pyCollapseWs (pyStrip (pyLower text))
  String.mk (t.toList.filter (fun c => isKeepChar c || isPyWs c))

/-- Number of set bits of a natural number (`bin(x).count("1")`), computed
with enough fuel to exhaust the binary digits. -/
def popcountAux : Nat → Nat → Nat
  | 0, _ => 0
  | fuel + 1, n => if n = 0 then 0 else n % 2 + popcountAux fuel (n / 2)

/-- Number of set bits of a natural number (`bin(x).count("1")`). -/
def popcount (n : Nat) : Nat :=
  popcountAux n n

/-- `dedupe.hamming_distance`: popcount of the XOR. -/
def hammingDistance (a b : Nat) : Nat :=
  popcount (a ^^^ b)

/-- The per-bit vote of `dedupe.simhash`: each token whose hash has bit `i`
set votes `+1`, the others vote `-1`. -/
def simVote (md5 : String → Nat) (tokens : List String) (i : Nat) : Int :=
  tokens.foldl (fun a t => a + if (md5 t).testBit i then 1 else -1) 0

/-- `dedupe.simhash` with the MD5 token hash abstracted as `md5`: bit `i` of
the result is set exactly when the accumulated vote for bit `i` is
positive; the empty token list hashes to `0`. -/
def simhash (md5 : String → Nat) (text : String) : Nat :=
  let tokens := pySplit (normalize text)
  if tokens = [] then 0
  else (List.range 64).foldl
    (fun v i => if 0 < simVote md5 tokens i then v ||| (1 <<< i) else v) 0

/-- `dedupe._token_set`. -/
def token_set (text : String) : Finset String :=
  (pySplit (normalize text)).toFinset

/-- The length-3 character windows of a list. -/
def windows3 : List Char → List String
  | a :: b :: c :: rest => String.mk [a, b, c] :: windows3 (b :: c :: rest)
  | _ => []

/-- `dedupe._char_ngrams` with `n = 3`: trigrams of the normalised text with
spaces removed; short non-empty texts contribute themselves. -/
def char_ngrams (text : String) : Finset String :=
  let compact := (normalize text).toList.filter (fun c => !(c == ' '))
  if compact.length < 3 then
    if compact = [] then ∅ else {String.mk compact}
  else (windows3 compact).toFinset

/-- `dedupe._jaccard`, with the float division modelled as a rational. -/
def jaccard (a b : Finset String) : ℚ :=
  if a = ∅ ∨ b = ∅ then 0
  else ((a ∩ b).card : ℚ) / ((a ∪ b).card : ℚ)

/-- The integer index kept in loosely-typed `correct_index` fields: either a
Python int or a string. -/
inductive CI where
  | int (n : Int)
  | str (s : String)
deriving DecidableEq

/-- The normalised question record produced by
`utils.normalize_question_items` (also used for the final emitted items). -/
structure QRec where
  type : String := "open"
  question : String := ""
  answer : String := ""
  difficulty : String := ""
  tags : List String := []
  sources : List String := []
  evidence : List String := []
  options : Option (List String) := none
  correct_index : Option CI := none
deriving DecidableEq

/-- The comparison data `dedupe_questions` keeps for each accepted item. -/
structure Fingerprint where
  h : Nat
  norm : String
  tokens : Finset String
  ngrams : Finset String
deriving DecidableEq

/-- The fingerprint computed for a normalised question text `norm`
(`h = simhash(norm)`, `tokens = _token_set(norm)`,
`ngrams = _char_ngrams(norm)`). -/
def fingerprintOf (md5 : String → Nat) (norm : String) : Fingerprint :=
  ⟨simhash md5 norm, norm, token_set norm, char_ngrams norm⟩

/-- The duplicate test of `dedupe_questions`'s inner loop: simhashes within
`max_distance`, and then equal normalised text, token Jaccard at least 0.85
or trigram Jaccard at least 0.9. -/
def isDupePair (maxd : Int) (fp old : Fingerprint) : Bool :=
  decide ((hammingDistance fp.h old.h : Int) ≤ maxd) &&
    (decide (fp.norm = old.norm) ||
      decide ((85 : ℚ)/100 ≤ jaccard fp.tokens old.tokens) ||
      decide ((9 : ℚ)/10 ≤ jaccard fp.ngrams old.ngrams))

/-- The loop of `dedupe_questions`: items with empty normalised text are
skipped, items matching an earlier accepted fingerprint are dropped, the
rest are kept and their fingerprint appended to `seen`. -/
def dedupeAux (md5 : String → Nat) (maxd : Int) (seen : List Fingerprint) :
    List QRec → List QRec
  | [] => []
  | item :: rest =>
    if normalize item.question = "" then dedupeAux md5 maxd seen rest
    else if seen.any (fun old => isDupePair maxd (fingerprintOf md5 (normalize item.question)) old) then
      dedupeAux md5 maxd seen rest
    else item :: dedupeAux md5 maxd (seen ++ [fingerprintOf md5 (normalize item.question)]) rest

/-- `app/services/dedupe.py`, `dedupe_questions` (the call sites use
`max_distance = 3`). -/
def dedupe_questions (md5 : String → Nat) (questions : List QRec)
    (max_distance : Int) : List QRec :=
  dedupeAux md5 max_distance [] questions

/-- The number of inter-word gaps of a question text: the number of
whitespace characters left after lowering, stripping and collapsing
whitespace runs (each maximal run of the stripped text contributes exactly
one character). -/
def wsGapCount (q : String) : Nat :=
  ((pyCollapseWs (pyStrip (pyLower q))).toList.filter (fun c => isPyWs c)).length

/-! ### JSON extraction (`app/services/qa/utils.py`) -/

/-- JSON whitespace (the characters Python's `json` scanner skips between
tokens). -/
def jsonWs (c : Char) : Bool :=
  c == ' ' || c == '\t' || c == '\n' || c == '\r'

/-- Skip JSON whitespace. -/
def skipWs (cs : List Char) : List Char :=
  cs.dropWhile jsonWs

/-- Parsed JSON values.  Number lexemes are kept verbatim: no claim below
inspects numeric values. -/
inductive JVal where
  | null
  | bool (b : Bool)
  | num (lex : String)
  | str (s : String)
  | arr (items : List JVal)
  | obj (fields : List (String × JVal))

/-- Hexadecimal digits. -/
def isHexChar (c : Char) : Bool :=
  decide (('0' ≤ c ∧ c ≤ '9') ∨ ('a' ≤ c ∧ c ≤ 'f') ∨ ('A' ≤ c ∧ c ≤ 'F'))

/-- The JSON string escapes accepted after a backslash (besides `u`). -/
def jsonEscape (c : Char) : Bool :=
  c == '"' || c == '\\' || c == '/' || c == 'b' || c == 'f' || c == 'n' || c == 'r' || c == 't'

/-- Body of a JSON string after the opening quote: returns the decoded
string and the rest after the closing quote.  Strict mode: unescaped control
characters and unknown escapes are rejected, `\uXXXX` must have four hex
digits (the decoded character is irrelevant to every claim and is modelled
as the code point when it is a scalar value). -/
def parseStringAux : Nat → List Char → List Char → Option (String × List Char)
  | 0, _, _ => none
  | _ + 1, _, [] => none
  | fuel + 1, acc, c :: rest =>
    if c = '"' then some (String.mk acc.reverse, rest)
    else if c = '\\' then
      match rest with
      | [] => none
      | e :: rest2 =>
        if e = 'u' then
          match rest2 with
          | h1 :: h2 :: h3 :: h4 :: rest3 =>
            if isHexChar h1 && isHexChar h2 && isHexChar h3 && isHexChar h4 then
              parseStringAux fuel (Char.ofNat (4660) :: acc) rest3
            else none
          | _ => none
        else if jsonEscape e then parseStringAux fuel (e :: acc) rest2
        else none
    else if c.toNat < 32 then none
    else parseStringAux fuel (c :: acc) rest

/-- Parse a JSON string body (fuel is the remaining length). -/
def parseStringBody (cs : List Char) : Option (String × List Char) :=
  parseStringAux (cs.length + 1) [] cs

/-- The integer part of a JSON number: `0` or a nonzero digit followed by
digits. -/
def numIntPart : List Char → Option (List Char × List Char)
  | '0' :: rest => some (['0'], rest)
  | c :: rest =>
    if c.isDigit then some (c :: rest.takeWhile (·.isDigit), rest.dropWhile (·.isDigit))
    else none
  | [] => none

/-- The optional fractional part `.digits`. -/
def numFracPart (cs : List Char) : List Char × List Char :=
  match cs with
  | '.' :: rest =>
    if (rest.takeWhile (·.isDigit)) = [] then ([], cs)
    else ('.' :: rest.takeWhile (·.isDigit), rest.dropWhile (·.isDigit))
  | _ => ([], cs)

/-- The optional exponent part `e[+-]?digits`. -/
def numExpPart (cs : List Char) : List Char × List Char :=
  match cs with
  | e :: rest =>
    if e = 'e' ∨ e = 'E' then
      match rest with
      | s :: rest2 =>
        if s = '+' ∨ s = '-' then
          if (rest2.takeWhile (·.isDigit)) = [] then ([], cs)
          else (e :: s :: rest2.takeWhile (·.isDigit), rest2.dropWhile (·.isDigit))
        else if (rest.takeWhile (·.isDigit)) = [] then ([], cs)
        else (e :: rest.takeWhile (·.isDigit), rest.dropWhile (·.isDigit))
      | [] => ([], cs)
    else ([], cs)
  | [] => ([], cs)

/-- Parse a JSON number (as matched by Python's `NUMBER_RE`), keeping the
lexeme. -/
def parseNum (cs : List Char) : Option (JVal × List Char) :=
  match cs with
  | '-' :: rest =>
    match numIntPart rest with
    | none => none
    | some (ip, r1) =>
      match numFracPart r1 with
      | (fp, r2) =>
        match numExpPart r2 with
        | (ep, r3) => some (.num (String.mk ('-' :: (ip ++ fp ++ ep))), r3)
  | _ =>
    match numIntPart cs with
    | none => none
    | some (ip, r1) =>
      match numFracPart r1 with
      | (fp, r2) =>
        match numExpPart r2 with
        | (ep, r3) => some (.num (String.mk (ip ++ fp ++ ep)), r3)

mutual

/-- One JSON value starting at the head of the list (no leading whitespace
skip, matching `json.JSONDecoder.raw_decode`); `NaN`, `Infinity` and
`-Infinity` are accepted as Python's decoder does by default. -/
def parseVal : Nat → List Char → Option (JVal × List Char)
  | 0, _ => none
  | fuel + 1, cs =>
    match cs with
    | [] => none
    | 'n' :: rest => if rest.take 3 = ['u', 'l', 'l'] then some (.null, rest.drop 3) else none
    | 't' :: rest => if rest.take 3 = ['r', 'u', 'e'] then some (.bool true, rest.drop 3) else none
    | 'f' :: rest => if rest.take 4 = ['a', 'l', 's', 'e'] then some (.bool false, rest.drop 4) else none
    | 'N' :: rest => if rest.take 2 = ['a', 'N'] then some (.num "NaN", rest.drop 2) else none
    | 'I' :: rest =>
      if rest.take 7 = ['n', 'f', 'i', 'n', 'i', 't', 'y'] then some (.num "Infinity", rest.drop 7)
      else none
    | '"' :: rest => (parseStringBody rest).map (fun p => (.str p.1, p.2))
    | '[' :: rest =>
      match skipWs rest with
      | ']' :: r2 => some (.arr [], r2)
      | cs2 => (parseArrItems fuel cs2).map (fun p => (.arr p.1, p.2))
    | '{' :: rest =>
      match skipWs rest with
      | '}' :: r2 => some (.obj [], r2)
      | cs2 => (parseObjItems fuel cs2).map (fun p => (.obj p.1, p.2))
    | '-' :: rest =>
      if rest.take 8 = ['I', 'n', 'f', 'i', 'n', 'i', 't', 'y'] then
        some (.num "-Infinity", rest.drop 8)
      else parseNum ('-' :: rest)
    | c :: _ => if c.isDigit then parseNum cs else none

/-- Non-empty comma-separated array items, ending at `]`. -/
def parseArrItems : Nat → List Char → Option (List JVal × List Char)
  | 0, _ => none
  | fuel + 1, cs =>
    match parseVal fuel cs with
    | none => none
    | some (v, r1) =>
      match skipWs r1 with
      | ',' :: r2 =>
        match parseArrItems fuel (skipWs r2) with
        | some (vs, r3) => some (v :: vs, r3)
        | none => none
      | ']' :: r2 => some ([v], r2)
      | _ => none

/-- Non-empty comma-separated object members, ending at `}`. -/
def parseObjItems : Nat → List Char → Option (List (String × JVal) × List Char)
  | 0, _ => none
  | fuel + 1, cs =>
    match cs with
    | '"' :: r0 =>
      match parseStringBody r0 with
      | none => none
      | some (k, r1) =>
        match skipWs r1 with
        | ':' :: r2 =>
          match parseVal fuel (skipWs r2) with
          | none => none
          | some (v, r3) =>
            match skipWs r3 with
            | ',' :: r4 =>
              match parseObjItems fuel (skipWs r4) with
              | some (fs, r5) => some ((k, v) :: fs, r5)
              | none => none
            | '}' :: r4 => some ([(k, v)], r4)
            | _ => none
        | _ => none
    | _ => none

end

/-- Model of `json.JSONDecoder().raw_decode` applied to a string: a value
parsed from the very first character, together with the number of characters
consumed.  Trailing data is ignored. -/
def jsonRawDecode (cs : List Char) : Option (JVal × Nat) :=
  match parseVal (2 * cs.length + 2) cs with
  | some (v, rest) => some (v, cs.length - rest.length)
  | none => none

/-- Model of `json.loads`: leading and trailing whitespace allowed, the whole
input must be consumed. -/
def jsonLoads (s : String) : Option JVal :=
  match parseVal (2 * s.toList.length + 2) (skipWs s.toList) with
  | some (v, rest) => if skipWs rest = [] then some v else none
  | none => none

/-- The continuation `\s* ``` ` required after the captured group of the
fence regex. -/
def fenceAfter (cs : List Char) : Bool :=
  match cs.dropWhile (isPyWs ·) with
  | '`' :: '`' :: '`' :: _ => true
  | _ => false

/-- The non-greedy capture `\[[\s\S]*?\]` (resp. braces) followed by
`\s*` and a closing fence: take the smallest extension whose closing
bracket is followed by a fence. -/
def fenceCapture (close : Char) (acc : List Char) : List Char → Option (List Char)
  | [] => none
  | c :: rest =>
    if c = close ∧ fenceAfter rest then some ((c :: acc).reverse)
    else fenceCapture close (c :: acc) rest

/-- Try to match `_JSON_FENCE_RE` at the head of the list: three backticks,
an optional case-insensitive `json` tag, whitespace, then a bracketed
group. -/
def fenceTryAt (cs : List Char) : Option (List Char) :=
  match cs with
  | '`' :: '`' :: '`' :: rest =>
    let rest2 :=
      match rest with
      | j :: s :: o :: n :: r =>
        if pyLowerChar j = 'j' ∧ pyLowerChar s = 's' ∧ pyLowerChar o = 'o' ∧ pyLowerChar n = 'n'
        then r else rest
      | _ => rest
    match rest2.dropWhile (isPyWs ·) with
    | '[' :: tl => fenceCapture ']' ['['] tl
    | '{' :: tl => fenceCapture '}' ['{'] tl
    | _ => none
  | _ => none

/-- `re.search` with `_JSON_FENCE_RE`: the leftmost position at which the
fence pattern matches, returning the captured group. -/
def fenceSearchAux : List Char → Option (List Char)
  | [] => none
  | c :: rest =>
    match fenceTryAt (c :: rest) with
    | some g => some g
    | none => fenceSearchAux rest

/-- Strategy (b)'s candidate: the trimmed text with any leading BOM
characters removed (`text.strip().lstrip("﻿")`). -/
def trimmed_candidate (text : String) : String :=
  String.mk ((pyStrip text).toList.dropWhile (fun c => c == Char.ofNat 0xFEFF))

/-- Strategy (c): scan for the first `[` or `{` from which `raw_decode`
succeeds, and return exactly the consumed slice. -/
def scanDecodeAux : List Char → Option String
  | [] => none
  | c :: rest =>
    if c = '[' ∨ c = '{' then
      match jsonRawDecode (c :: rest) with
      | some (_, consumed) => some (String.mk ((c :: rest).take consumed))
      | none => scanDecodeAux rest
    else scanDecodeAux rest

/-- `s.startswith("[") or s.startswith("{")`. -/
def startsWithBracket (s : String) : Bool :=
  match s.toList with
  | '[' :: _ => true
  | '{' :: _ => true
  | _ => false

/-- `utils.extract_first_json`: first a fenced block, then the whole trimmed
text when it starts with a bracket, then the scan; `None` when everything
fails (or the input is empty). -/
def extract_first_json (text : String) : Option String :=
  if text = "" then none
  else
    match fenceSearchAux text.toList with
    | some g => some (pyStrip (String.mk g))
    | none =>
      if startsWithBracket (trimmed_candidate text) then some (trimmed_candidate text)
      else scanDecodeAux text.toList

/-- The substitution `re.sub(r",\s*([\]\}])", r"\1", raw)`: a comma whose
next non-whitespace character is a closing bracket is deleted together with
the whitespace run (fuel bounds the recursion; every step consumes at least
one character). -/
def stripTrailingCommasAux : Nat → List Char → List Char
  | 0, cs => cs
  | _ + 1, [] => []
  | fuel + 1, c :: rest =>
    if c = ',' then
      match rest.dropWhile (isPyWs ·) with
      | b :: tl =>
        if b = ']' ∨ b = '}' then b :: stripTrailingCommasAux fuel tl
        else c :: stripTrailingCommasAux fuel rest
      | [] => c :: stripTrailingCommasAux fuel rest
    else c :: stripTrailingCommasAux fuel rest

/-- `re.sub(r",\s*([\]\}])", r"\1", s)`. -/
def stripTrailingCommas (s : String) : String :=
  String.mk (stripTrailingCommasAux (s.toList.length + 1) s.toList)

/-- `utils.safe_json_loads` with the permissive `ast.literal_eval` fallback
abstracted as `literal_eval` (every theorem about it holds for all
fallbacks, hence for Python's). -/
def safe_json_loads (literal_eval : String → Option JVal) (text : String) :
    Except String JVal :=
  match extract_first_json text with
  | none => .error "No JSON found in model response"
  | some raw =>
    if raw = "" then .error "No JSON found in model response"
    else
      match jsonLoads (stripTrailingCommas raw) with
      | some v => .ok v
      | none =>
        match literal_eval (stripTrailingCommas raw) with
        | some v => .ok v
        | none => .error "Invalid JSON in model response"

/-! ### Item normalisation (`app/services/qa/utils.py`) -/

/-- A Python word character for the unicode `\w` class, restricted to the
scripts this code handles (ASCII alphanumerics, underscore, Cyrillic). -/
def isWordChar (c : Char) : Bool :=
  decide (('a' ≤ c ∧ c ≤ 'z') ∨ ('A' ≤ c ∧ c ≤ 'Z') ∨ ('0' ≤ c ∧ c ≤ '9') ∨ c = '_' ∨
    ('а' ≤ c ∧ c ≤ 'я') ∨ ('А' ≤ c ∧ c ≤ 'Я') ∨ c = 'ё' ∨ c = 'Ё')

/-- `utils.normalize_text`: lowercase, strip, collapse whitespace, delete
everything outside `\w` and whitespace. -/
def normalize_text (text : String) : String :=
  let t := pyCollapseWs (pyStrip (pyLower text))
  String.mk (t.toList.filter (fun c => isWordChar c || isPyWs c))

/-- The `_TF_PREFIXES` tuple. -/
def tfMarkers : List String :=
  ["верно ли", "правда ли", "всегда ли", "может ли", "является ли"]

/-- `utils.starts_with_tf_prefix` (renamed): strip and lower the question,
drop the leading run of characters outside `a`-`z`, `а`-`я`, `0`-`9`, and
test for the true/false marker phrases. -/
def starts_with_tf_marker (question : String) : Bool :=
  if question = "" then false
  else
    let cleaned := pyLower (pyStrip question)
    let cleaned2 := String.mk (cleaned.toList.dropWhile (fun c =>
      !(decide (('a' ≤ c ∧ c ≤ 'z') ∨ ('а' ≤ c ∧ c ≤ 'я') ∨ ('0' ≤ c ∧ c ≤ '9')))))
    tfMarkers.any (fun p => cleaned2.startsWith p)

/-- The built-in `_GENERIC_ANSWER_PATTERNS` (each is an anchored literal, so
`fullmatch` is equality on the normalised answer); the configured extra
pattern list defaults to empty. -/
def genericAnswers : List String :=
  ["константа", "константный ответ", "оптимальный ответ",
   "оптимальный константный ответ", "среднее", "среднее значение",
   "среднее арифметическое"]

/-- The keywords of the short-answer exception regex
`\b(mse|rmse|mae|r2|констант|средн)\b`.  On `normalize_text` output (word
characters and single spaces only) a word-boundary match is exactly a
whitespace-delimited token equal to a keyword. -/
def genericKeywords : List String :=
  ["mse", "rmse", "mae", "r2", "констант", "средн"]

/-- `utils.is_generic_answer` under the default settings
(`filter_generic_answers = True`, no extra patterns). -/
def is_generic_answer (answer question : String) : Bool :=
  let an := normalize_text answer
  if an = "" then true
  else if an = "верно" ∨ an = "неверно" then false
  else if genericAnswers.contains an then
    let qn := normalize_text question
    decide (60 ≤ qn.length) && (pySplit qn).all (fun t => !genericKeywords.contains t)
  else false

/-- A loosely-typed dict value that is either a string or a list of
strings (the shapes `tags` / `sources` / `evidence` take). -/
inductive SL where
  | str (s : String)
  | list (xs : List String)
deriving DecidableEq

/-- A raw LLM-produced question dict, with the fields the pipeline reads;
`none` models an absent key. -/
structure RawItem where
  type : Option String := none
  question : Option String := none
  answer : Option String := none
  difficulty : Option String := none
  tags : Option SL := none
  sources : Option SL := none
  evidence : Option SL := none
  options : Option (List String) := none
  correct_index : Option CI := none
deriving DecidableEq

/-- `tags = item.get("tags") or []`, then a string is whitespace-split and a
non-list becomes `[]` (an empty string is falsy and also yields `[]`). -/
def slToList : Option SL → List String
  | none => []
  | some (.str s) => pySplit s
  | some (.list xs) => xs

/-- `sources`: a string is comma-split with stripping, empties dropped. -/
def slToSources : Option SL → List String
  | none => []
  | some (.str s) =>
    if s = "" then [] else ((s.splitOn ",").map pyStrip).filter (fun x => !(x == ""))
  | some (.list xs) => xs

/-- `evidence`: a non-empty string becomes a singleton list. -/
def slToEvidence : Option SL → List String
  | none => []
  | some (.str s) => if s = "" then [] else [s]
  | some (.list xs) => xs

/-- Python `str.isdigit` on ASCII digits. -/
def pyIsDigit (s : String) : Bool :=
  !(s == "") && s.toList.all (·.isDigit)

/-- `int(s)` for a digit string. -/
def digitsToNat (s : String) : Nat :=
  s.toList.foldl (fun a c => a * 10 + (c.toNat - '0'.toNat)) 0

/-- The mcq `correct_index` validation of `normalize_question_items`: a
digit string is coerced to an int, and the (possibly coerced) value must be
an int in `[0,4)`. -/
def mcq_ci_ok : Option CI → Bool
  | some (.int n) => decide (0 ≤ n ∧ n < 4)
  | some (.str s) => if pyIsDigit s then decide ((digitsToNat s : Int) < 4) else false
  | none => false

/-- One iteration of the `normalize_question_items` loop: empty questions
are dropped, fields are coerced into a canonical record, malformed mcq items
are demoted to `open` with `options`/`correct_index` cleared, and items
whose answer is judged generic are dropped. -/
def normalizeQuestionItem (difficulty : String) (item : RawItem) : Option QRec :=
  if pyStrip (item.question.getD "") = "" then none
  else
    let rec0 : QRec := {
      type := pyStrip (pyLower (item.type.getD "open"))
      question := pyStrip (item.question.getD "")
      answer := pyStrip (item.answer.getD "")
      difficulty := match item.difficulty with
        | some d => if d = "" then difficulty else d
        | none => difficulty
      tags := ((slToList item.tags).filter (fun x => !(pyStrip x == ""))).map
        (fun x => pyStrip (pyLower x))
      sources := slToSources item.sources
      evidence := slToEvidence item.evidence
      options := item.options
      correct_index := item.correct_index }
    let rec1 :=
      if rec0.type = "mcq" then
        if (rec0.options.getD []).length ≠ 4 then
          { rec0 with type := "open", options := none, correct_index := none }
        else if mcq_ci_ok rec0.correct_index then rec0
        else { rec0 with type := "open", options := none, correct_index := none }
      else rec0
    if is_generic_answer rec1.answer rec1.question then none else some rec1

/-- `utils.normalize_question_items` (non-dict entries cannot occur in the
typed model). -/
def normalize_question_items (items : List RawItem) (difficulty : String) : List QRec :=
  items.filterMap (normalizeQuestionItem difficulty)

/-- Python `str.rstrip("?")`. -/
def pyRstripQmark (s : String) : String :=
  String.mk ((s.toList.reverse.dropWhile (fun c => c == '?')).reverse)

/-- `utils.to_anki_qa` on a normalised record: mcq items are rewritten to
open with the correct option substituted as answer, tf items are rewritten
to open with a `Верно ли` question framing and a canonical answer; any
other type string passes through unchanged. -/
def to_anki_qa (item : QRec) : QRec :=
  let q_type := pyLower (if item.type = "" then "open" else item.type)
  let question := pyStrip item.question
  let answer := pyStrip item.answer
  if q_type = "mcq" then
    let options := item.options.getD []
    let ci : Option CI :=
      match item.correct_index with
      | some (.str s) => if pyIsDigit s then some (.int (digitsToNat s : Int)) else some (.str s)
      | x => x
    let answer2 :=
      match ci with
      | some (.int n) =>
        if 0 ≤ n ∧ n < options.length then
          if pyStrip (options.getD n.toNat "") = "" then answer
          else pyStrip (options.getD n.toNat "")
        else answer
      | _ => answer
    let tags2 := item.tags.filter (fun t => !(t == "mcq"))
    { item with type := "open", question := question, answer := answer2
                tags := if tags2.contains "open" then tags2 else tags2 ++ ["open"]
                options := none, correct_index := none }
  else if q_type = "tf" then
    let question2 :=
      if question ≠ "" ∧ starts_with_tf_marker question = false then
        "Верно ли, что " ++ pyRstripQmark question ++ "?"
      else question
    let al := pyLower answer
    let answer2 :=
      if al = "true" ∨ al = "верно" ∨ al = "истина" ∨ al = "да" then "Верно"
      else if al = "false" ∨ al = "неверно" ∨ al = "ложь" ∨ al = "нет" then "Неверно"
      else answer
    let tags2 := item.tags.filter (fun t => !(t == "tf"))
    { item with type := "open", question := question2, answer := answer2
                tags := if tags2.contains "open" then tags2 else tags2 ++ ["open"] }
  else
    { item with question := question, answer := answer }

/-- The loop of `utils.cheap_dedupe`: drop items whose `normalize_text`
normalisation is empty or already seen. -/
def cheapDedupeAux (seen : List String) : List QRec → List QRec
  | [] => []
  | item :: rest =>
    if normalize_text item.question = "" ∨ normalize_text item.question ∈ seen then
      cheapDedupeAux seen rest
    else item :: cheapDedupeAux (seen ++ [normalize_text item.question]) rest

/-- `utils.cheap_dedupe`. -/
def cheap_dedupe (items : List QRec) : List QRec :=
  cheapDedupeAux [] items

/-- `utils.merge_per_file_outputs`: concatenate the per-file outputs,
dedupe, and when the result is short of `requested_total` extend it with
the whole merged list (duplicates included) before truncating. -/
def merge_per_file_outputs (md5 : String → Nat) (outputs : List (List QRec))
    (requested_total : Nat) : List QRec :=
  let merged := outputs.foldl (fun acc items => acc ++ items) []
  let deduped := dedupe_questions md5 merged 3
  (if deduped.length < requested_total then deduped ++ merged else deduped).take
    requested_total

/-- `worker/job_runner.py`, `run_generation_job` lines 193-196: the same
dedupe / extend-with-the-original-list / truncate step applied to the
generated questions. -/
def worker_dedupe_backfill (md5 : String → Nat) (questions : List QRec)
    (requested_total : Nat) : List QRec :=
  let deduped := dedupe_questions md5 questions 3
  (if deduped.length < requested_total then deduped ++ questions else deduped).take
    requested_total

/-! ### The LLM invocation layer (`app/services/qa/clients.py`) -/

/-- The error message of the `RuntimeError` raised after exhausting the
attempts. -/
def invokeFailMsg (attempts : Nat) (last : Option String) : String :=
  "LLM invoke failed after " ++ toString attempts ++ " attempts: " ++
    (match last with | some e => e | none => "None")

/-- The retry loop of `clients.invoke`.  The client is modelled as a map
from the call index to either a response text or an error message; the
result is paired with the number of calls made (`remaining` counts the loop
iterations left, `i` is the next call index).  The `time.sleep` performed
on a parsed retry hint affects no state and is not modelled. -/
def invokeAux (client : Nat → Except String String) (attempts : Nat) :
    Nat → Nat → Option String → Except String String × Nat
  | 0, i, last => (.error (invokeFailMsg attempts last), i)
  | remaining + 1, i, last =>
    match client i with
    | .ok content => (.ok content, i + 1)
    | .error e => invokeAux client attempts remaining (i + 1) (some e)

/-- `clients.invoke` (the call sites use the default `attempts = 3`): call
the client up to `attempts` times, returning the first successful response,
and raise a `RuntimeError` carrying the last error after the final failure.
The loop contains no inspection of the error message other than the
retry-delay hint used for sleeping. -/
def invoke (client : Nat → Except String String) (attempts : Nat) :
    Except String String × Nat :=
  invokeAux client attempts attempts 0 none

/-! ### The agent chain (`app/services/qa/agents.py`, `types.py`,
`pipeline.py`)

The externals (the Gemini/OpenRouter client construction, the embeddings
backend, the Chroma vector store and the LLM-calling per-file loop bodies of
Planner / Evidence / QGen) are abstracted into an environment record; every
theorem about the chain holds for all environments.  The per-file loop
bodies are guarded by a `_cancelled` poll in the source, so they are never
reached in any run modelled by the theorems below. -/

/-- A Python exception class (only the classes the modelled code can
raise). -/
inductive PyErr where
  | attributeError
  | assertionError
deriving DecidableEq

/-- A raw chunk dict `{text, source, index}` from a `FileInput`. -/
structure RawChunk where
  text : String := ""
  source : Option String := none
  index : Int := 0
deriving DecidableEq

/-- `types.FileInput`. -/
structure FileInput where
  file_id : String
  file_name : String
  chunks : List RawChunk
deriving DecidableEq

/-- An evidence item `{topic, context}`. -/
structure Evid where
  topic : String := ""
  context : String := ""
deriving DecidableEq

/-- A metrics value (ints and the drop-rate float are rationals here). -/
inductive MVal where
  | num (q : ℚ)
  | bool (b : Bool)
  | str (s : String)
  | items (l : List QRec)
  | counts (l : List (String × Nat))
deriving DecidableEq

/-- The metrics dict, as an insertion-ordered association list with unique
keys. -/
def Metrics := List (String × MVal)

/-- Dict update: replace in place or append. -/
def mset : Metrics → String → MVal → Metrics
  | [], k, v => [(k, v)]
  | (k', v') :: rest, k, v =>
    if k' = k then (k, v) :: rest else (k', v') :: mset rest k v

/-- Dict lookup. -/
def mget : Metrics → String → Option MVal
  | [], _ => none
  | (k', v') :: rest, k => if k' = k then some v' else mget rest k

/-- `dict.setdefault`. -/
def msetdefault (m : Metrics) (k : String) (v : MVal) : Metrics :=
  match mget m k with
  | some _ => m
  | none => mset m k v

/-- Key removal (for `dict.pop`). -/
def mdel : Metrics → String → Metrics
  | [], _ => []
  | (k', v') :: rest, k => if k' = k then rest else (k', v') :: mdel rest k

/-- Lookup in a `file_id`-keyed dict. -/
def dget {α : Type} : List (String × α) → String → Option α
  | [], _ => none
  | (k', v') :: rest, k => if k' = k then some v' else dget rest k

/-- Update in a `file_id`-keyed dict. -/
def dset {α : Type} : List (String × α) → String → α → List (String × α)
  | [], k, v => [(k, v)]
  | (k', v') :: rest, k, v =>
    if k' = k then (k, v) :: rest else (k', v') :: dset rest k v

/-- The state of the `should_cancel` attribute on a context object:
`types.QAContext` declares no such field, so the constructor used by
`pipeline.generate_questions_for_files` leaves the attribute missing and
reading it raises `AttributeError`; Python allows a caller to set the
attribute afterwards to `None` or to a predicate (modelled by the Boolean
it returns when polled), which is what `agents.py` is written against. -/
inductive CancelAttr where
  | missing
  | noneV
  | pred (b : Bool)
deriving DecidableEq

/-- `types.QAContext`.  `llm` and `embeddings` are abstract handles;
`stores` keeps the keys of the per-file vector stores; `llm_calls` is a
ghost counter that any LLM-invoking loop body increments, used to state
that a run performed no LLM invocation. -/
structure QAContext where
  files : List FileInput
  requested_total : Nat
  difficulty : String
  llm : Option Unit := none
  embeddings : Option Unit := none
  stores : List String := []
  normalized_chunks : List (String × List RawChunk) := []
  per_file_questions : List (String × List RawItem) := []
  per_file_topics : List (String × List String) := []
  per_file_evidence : List (String × List Evid) := []
  metrics : Metrics := []
  should_cancel : CancelAttr := .missing
  llm_calls : Nat := 0

/-- `agents._cancelled`: `bool(ctx.should_cancel and ctx.should_cancel())`.
A missing attribute raises; `None` is falsy; a predicate is called. -/
def cancelled (ctx : QAContext) : Except PyErr Bool :=
  match ctx.should_cancel with
  | .missing => .error .attributeError
  | .noneV => .ok false
  | .pred b => .ok b

/-- The outcome of an abstracted per-file loop body: continue with a value,
return the context early (the in-body cancellation path), break out of the
loop, or raise. -/
inductive BodyStep (α : Type) where
  | next (ctx : QAContext) (val : α)
  | earlyRet (ctx : QAContext)
  | breakLoop (ctx : QAContext)
  | raised (ctx : QAContext) (e : PyErr)

/-- The abstracted externals of one run. -/
structure Env where
  /-- `settings.rag_use_embeddings`. -/
  rag_use_embeddings : Bool
  /-- The outcome of `build_embeddings()` in `SetupAgent`. -/
  build_embeddings : Except String Unit
  /-- `utils.normalize_chunks` (pure, but regex-driven redaction is outside
  the claims; any function is allowed). -/
  normalize_chunks : List RawChunk → String → List RawChunk
  /-- The Chroma indexing body of `IndexPerFileAgent` for one file. -/
  index_body : QAContext → FileInput → BodyStep Unit
  /-- The LLM-calling body of `PlannerAgent` for one file, yielding the
  topic list stored for that file. -/
  planner_body : QAContext → FileInput → BodyStep (List String)
  /-- The retrieval body of `EvidenceAgent` for one file. -/
  evidence_body : QAContext → FileInput → BodyStep (List Evid)
  /-- The LLM-calling body of `QGenAgent` for one file, yielding the list
  stored in `per_file_questions`. -/
  qgen_body : QAContext → FileInput → BodyStep (List RawItem)

/-- `SetupAgent.run`: build the LLM client if absent; when embeddings are
enabled try to build the embeddings client, recording a failure in metrics
and disabling embeddings instead of raising; record the file count. -/
def SetupAgent_run (env : Env) (ctx : QAContext) : QAContext × Option PyErr :=
  let ctx1 := { ctx with llm := match ctx.llm with | some u => some u | none => some () }
  let ctx2 :=
    if env.rag_use_embeddings then
      match ctx1.embeddings with
      | some _ => ctx1
      | none =>
        match env.build_embeddings with
        | .ok e => { ctx1 with embeddings := some e }
        | .error msg =>
          { ctx1 with
              metrics := mset (mset ctx1.metrics "embeddings_error" (.str msg))
                "embeddings_disabled" (.bool true) }
    else { ctx1 with metrics := mset ctx1.metrics "embeddings_disabled" (.bool true) }
  ({ ctx2 with metrics := msetdefault ctx2.metrics "files" (.num ctx2.files.length) }, none)

/-- The per-file loop of `NormalizeChunksAgent.run`, accumulating the
normalised mapping; cancellation polls happen at the top of each
iteration. -/
def NormalizeChunksAgent_go (env : Env) (ctx : QAContext)
    (acc : List (String × List RawChunk)) :
    List FileInput → QAContext × Option PyErr
  | [] =>
    ({ ctx with normalized_chunks := acc
                metrics := mset ctx.metrics "normalized_files" (.num acc.length) }, none)
  | f :: fs =>
    match cancelled ctx with
    | .error e => (ctx, some e)
    | .ok true => (ctx, none)
    | .ok false =>
      let chunks := env.normalize_chunks f.chunks f.file_name
      NormalizeChunksAgent_go env ctx
        (if chunks = [] then acc else acc ++ [(f.file_id, chunks)]) fs

/-- `NormalizeChunksAgent.run`. -/
def NormalizeChunksAgent_run (env : Env) (ctx : QAContext) : QAContext × Option PyErr :=
  NormalizeChunksAgent_go env ctx [] ctx.files

/-- The per-file loop of `IndexPerFileAgent.run`. -/
def IndexPerFileAgent_go (env : Env) (ctx : QAContext) :
    List FileInput → QAContext × Option PyErr
  | [] =>
    ({ ctx with metrics := mset ctx.metrics "indexed_files" (.num ctx.stores.length) }, none)
  | f :: fs =>
    match cancelled ctx with
    | .error e => (ctx, some e)
    | .ok true => (ctx, none)
    | .ok false =>
      match ctx.embeddings with
      | none =>
        ({ ctx with metrics := mset ctx.metrics "indexed_files" (.num ctx.stores.length) }, none)
      | some _ =>
        if ((dget ctx.normalized_chunks f.file_id).getD []) = [] then
          IndexPerFileAgent_go env ctx fs
        else
          match env.index_body ctx f with
          | .next ctx' _ => IndexPerFileAgent_go env ctx' fs
          | .earlyRet ctx' => (ctx', none)
          | .breakLoop ctx' =>
            ({ ctx' with
                metrics := mset ctx'.metrics "indexed_files" (.num ctx'.stores.length) },
              none)
          | .raised ctx' e => (ctx', some e)

/-- `IndexPerFileAgent.run`: a no-op recording zero indexed files when
embeddings are unavailable. -/
def IndexPerFileAgent_run (env : Env) (ctx : QAContext) : QAContext × Option PyErr :=
  match ctx.embeddings with
  | none => ({ ctx with metrics := mset ctx.metrics "indexed_files" (.num 0) }, none)
  | some _ => IndexPerFileAgent_go env ctx ctx.files

/-- The per-file loop of `PlannerAgent.run`, accumulating per-file
topics. -/
def PlannerAgent_go (env : Env) (ctx : QAContext) (acc : List (String × List String)) :
    List FileInput → QAContext × Option PyErr
  | [] =>
    ({ ctx with per_file_topics := acc
                metrics := mset ctx.metrics "topics_per_file"
                  (.counts (acc.map (fun p => (p.1, p.2.length)))) }, none)
  | f :: fs =>
    match cancelled ctx with
    | .error e => (ctx, some e)
    | .ok true => (ctx, none)
    | .ok false =>
      match env.planner_body ctx f with
      | .next ctx' topics => PlannerAgent_go env ctx' (acc ++ [(f.file_id, topics)]) fs
      | .earlyRet ctx' => (ctx', none)
      | .breakLoop ctx' => (ctx', none)
      | .raised ctx' e => (ctx', some e)

/-- `PlannerAgent.run` (the leading `assert ctx.llm is not None`
included). -/
def PlannerAgent_run (env : Env) (ctx : QAContext) : QAContext × Option PyErr :=
  match ctx.llm with
  | none => (ctx, some .assertionError)
  | some _ => PlannerAgent_go env ctx [] ctx.files

/-- The per-file loop of `EvidenceAgent.run`. -/
def EvidenceAgent_go (env : Env) (ctx : QAContext) (acc : List (String × List Evid)) :
    List FileInput → QAContext × Option PyErr
  | [] => ({ ctx with per_file_evidence := acc }, none)
  | f :: fs =>
    match cancelled ctx with
    | .error e => (ctx, some e)
    | .ok true => (ctx, none)
    | .ok false =>
      match env.evidence_body ctx f with
      | .next ctx' ev => EvidenceAgent_go env ctx' (acc ++ [(f.file_id, ev)]) fs
      | .earlyRet ctx' => (ctx', none)
      | .breakLoop ctx' => (ctx', none)
      | .raised ctx' e => (ctx', some e)

/-- `EvidenceAgent.run`. -/
def EvidenceAgent_run (env : Env) (ctx : QAContext) : QAContext × Option PyErr :=
  EvidenceAgent_go env ctx [] ctx.files

/-- The per-file loop of `QGenAgent.run`; the stored list is written into
`per_file_questions` file by file. -/
def QGenAgent_go (env : Env) (ctx : QAContext) :
    List FileInput → QAContext × Option PyErr
  | [] => (ctx, none)
  | f :: fs =>
    match cancelled ctx with
    | .error e => (ctx, some e)
    | .ok true => (ctx, none)
    | .ok false =>
      match env.qgen_body ctx f with
      | .next ctx' items =>
        QGenAgent_go env
          { ctx' with per_file_questions := dset ctx'.per_file_questions f.file_id items } fs
      | .earlyRet ctx' => (ctx', none)
      | .breakLoop ctx' => (ctx', none)
      | .raised ctx' e => (ctx', some e)

/-- `QGenAgent.run` (with its leading assert). -/
def QGenAgent_run (env : Env) (ctx : QAContext) : QAContext × Option PyErr :=
  match ctx.llm with
  | none => (ctx, some .assertionError)
  | some _ => QGenAgent_go env ctx ctx.files

/-- The per-item tag fix of `VerifierAgent.run`: coerce `tags` to a list and
append `"unverified"` when `sources` is falsy. -/
def verifier_fix (item : RawItem) : RawItem :=
  let tags := slToList item.tags
  let sourcesEmpty :=
    match item.sources with
    | none => true
    | some (.str s) => s = ""
    | some (.list l) => l = []
  { item with tags := some (.list (if sourcesEmpty then tags ++ ["unverified"] else tags)) }

/-- `VerifierAgent.run` (no cancellation poll in the source). -/
def VerifierAgent_run (ctx : QAContext) : QAContext × Option PyErr :=
  (ctx.files.foldl
    (fun c f =>
      { c with
          per_file_questions := dset c.per_file_questions f.file_id
            (((dget c.per_file_questions f.file_id).getD []).map verifier_fix) })
    ctx, none)

/-- The per-file question list `ctx.per_file_questions.get(fid, [])`. -/
def pfqGet (ctx : QAContext) (fid : String) : List RawItem :=
  (dget ctx.per_file_questions fid).getD []

/-- The Mixer's candidate pool: up to `2 x per-file quota` items per file,
extended with the remainders when the pool is short of
`2 x requested_total`. -/
def mixer_pool (ctx : QAContext) : List RawItem :=
  let quota := max 1 (ctx.requested_total / max 1 ctx.files.length)
  let round1 := ctx.files.foldl
    (fun acc f => acc ++ (pfqGet ctx f.file_id).take (quota * 2)) []
  if round1.length < ctx.requested_total * 2 then
    ctx.files.foldl (fun acc f => acc ++ (pfqGet ctx f.file_id).drop (quota * 2)) round1
  else round1

/-- The pool after normalisation, cheap dedupe and the full dedupe
cascade. -/
def mixer_deduped (md5 : String → Nat) (ctx : QAContext) : List QRec :=
  dedupe_questions md5 (cheap_dedupe (normalize_question_items (mixer_pool ctx) ctx.difficulty)) 3

/-- The inner backfill loop: append items one by one, stopping as soon as
the accumulated list reaches `requested_total`. -/
def backfill_add (target : Nat) (acc : List QRec) : List QRec → List QRec
  | [] => acc
  | x :: xs =>
    if target ≤ (acc ++ [x]).length then acc ++ [x]
    else backfill_add target (acc ++ [x]) xs

/-- The backfill over files: re-normalise each file's raw candidates and
append until `requested_total` is reached. -/
def mixer_backfill_go (target : Nat) (d : String) (pfq : List (String × List RawItem)) :
    List FileInput → List QRec → List QRec
  | [], acc => acc
  | f :: fs, acc =>
    let acc' := backfill_add target acc
      (normalize_question_items ((dget pfq f.file_id).getD []) d)
    if target ≤ acc'.length then acc' else mixer_backfill_go target d pfq fs acc'

/-- The deduped pool, backfilled (and re-deduped) when short of
`requested_total`. -/
def mixer_filled (md5 : String → Nat) (ctx : QAContext) : List QRec :=
  let dd := mixer_deduped md5 ctx
  if dd.length < ctx.requested_total then
    dedupe_questions md5
      (cheap_dedupe (mixer_backfill_go ctx.requested_total ctx.difficulty
        ctx.per_file_questions ctx.files dd)) 3
  else dd

/-- The items available after normalisation, deduplication and backfill, in
display form (`to_anki_qa` applied to each); `_result` is this list
truncated to `requested_total`. -/
def mixer_final_items (md5 : String → Nat) (ctx : QAContext) : List QRec :=
  (mixer_filled md5 ctx).map to_anki_qa

/-- `MixerAgent.run`. -/
def MixerAgent_run (md5 : String → Nat) (ctx : QAContext) : QAContext × Option PyErr :=
  match cancelled ctx with
  | .error e => (ctx, some e)
  | .ok true => (ctx, none)
  | .ok false =>
    let before := (normalize_question_items (mixer_pool ctx) ctx.difficulty).length
    let after := (mixer_deduped md5 ctx).length
    let final := mixer_final_items md5 ctx
    let m1 := mset ctx.metrics "dedupe_drop_rate"
      (.num (((before : ℚ) - (after : ℚ)) / ((max 1 before : Nat) : ℚ)))
    let m2 := mset m1 "final_count" (.num (min ctx.requested_total final.length))
    let m3 := mset m2 "per_file_counts"
      (.counts (ctx.files.map (fun f => (f.file_id, (pfqGet ctx f.file_id).length))))
    let m4 := mset m3 "_result" (.items (final.take ctx.requested_total))
    ({ ctx with metrics := m4 }, none)

/-- Run the next agent unless an exception is already propagating. -/
def stepAgent (r : QAContext × Option PyErr) (a : QAContext → QAContext × Option PyErr) :
    QAContext × Option PyErr :=
  match r with
  | (c, some e) => (c, some e)
  | (c, none) => a c

/-- The fixed agent sequence of `pipeline.generate_questions_for_files`,
exposed with the crash state. -/
def pipeline_run (env : Env) (md5 : String → Nat) (files : List FileInput)
    (requested_total : Nat) (difficulty : String) : QAContext × Option PyErr :=
  let ctx0 : QAContext :=
    { files := files, requested_total := requested_total, difficulty := difficulty }
  stepAgent (stepAgent (stepAgent (stepAgent (stepAgent (stepAgent (stepAgent
    (SetupAgent_run env ctx0)
    (NormalizeChunksAgent_run env))
    (IndexPerFileAgent_run env))
    (PlannerAgent_run env))
    (EvidenceAgent_run env))
    (QGenAgent_run env))
    VerifierAgent_run)
    (MixerAgent_run md5)

/-- `pipeline.generate_questions_for_files`: run the chain on a fresh
context (note: no `should_cancel` argument exists and the constructed
`QAContext` has no such attribute), then pop the reserved `_result` key. -/
def generate_questions_for_files (env : Env) (md5 : String → Nat)
    (files : List FileInput) (requested_total : Nat) (difficulty : String) :
    Except PyErr (List QRec × Metrics) :=
  match pipeline_run env md5 files requested_total difficulty with
  | (_, some e) => .error e
  | (ctx, none) =>
    match mget ctx.metrics "_result" with
    | some (.items l) => .ok (l, mdel ctx.metrics "_result")
    | _ => .ok ([], ctx.metrics)

/-! ### Concrete objects used by closed evaluation theorems -/

/-- A concrete stand-in for the abstract MD5 hash, used only in closed
statements whose outcome is hash independent. -/
def md5z : String → Nat := fun _ => 0

/-- The three-item list of the dedupe regression test
(`tests/test_dedupe.py`). -/
def threeItems : List QRec :=
  [{ question := "What is AI?" }, { question := "What is AI" },
   { question := "Define machine learning" }]

/-- A duplicated question pair. -/
def aiQ : QRec := { question := "What is AI?" }

/-- A raw item whose type is neither `open`, `mcq` nor `tf`. -/
def clozeItem : RawItem :=
  { type := some "cloze", question := some "What is photosynthesis",
    answer := some "Light to energy" }

/-- A context with one file and one non-open-typed question, with the
`should_cancel` attribute present (set to `None`) so that the Mixer can
run. -/
def ctxCloze : QAContext :=
  { files := [⟨"f1", "a.txt", []⟩], requested_total := 1, difficulty := "medium",
    per_file_questions := [("f1", [clozeItem])], should_cancel := .noneV }

/-- The record the Mixer emits for `clozeItem`: the `cloze` type string
passes through `to_anki_qa` unchanged. -/
def clozeRec : QRec :=
  { type := "cloze", question := "What is photosynthesis",
    answer := "Light to energy", difficulty := "medium" }

/-- An mcq item with only three options (malformed). -/
def mcqBadItem : RawItem :=
  { type := some "mcq", question := some "Pick one", answer := some "x",
    options := some ["a", "b", "c"] }

/-- The record `normalize_question_items` emits for `mcqBadItem`. -/
def mcqBadRec : QRec :=
  { type := "open", question := "Pick one", answer := "x", difficulty := "easy" }

/-! ### Lemmas about the deduplication engine -/

theorem popcount_zero : popcount 0 = 0 := rfl

/-- Disjoint sets have Jaccard similarity `0`. -/
theorem jaccard_eq_zero_of_disjoint (a b : Finset String) (h : a ∩ b = ∅) :
    jaccard a b = 0 := by
  unfold jaccard
  split_ifs with h1
  · rfl
  · rw [h]
    simp

theorem hammingDistance_self (a : Nat) : hammingDistance a a = 0 := by
  simp [hammingDistance, Nat.xor_self, popcount_zero]

theorem isDupePair_self (maxd : Int) (hm : 0 ≤ maxd) (fp : Fingerprint) :
    isDupePair maxd fp fp = true := by
  simp [isDupePair, hammingDistance_self, hm]

theorem dedupeAux_nil (md5 : String → Nat) (maxd : Int) (seen : List Fingerprint) :
    dedupeAux md5 maxd seen [] = [] := rfl

theorem dedupeAux_cons_skip_empty (md5 : String → Nat) (maxd : Int)
    (seen : List Fingerprint) (x : QRec) (rest : List QRec)
    (h : normalize x.question = "") :
    dedupeAux md5 maxd seen (x :: rest) = dedupeAux md5 maxd seen rest := by
  simp [dedupeAux, h]

theorem dedupeAux_cons_skip_dup (md5 : String → Nat) (maxd : Int)
    (seen : List Fingerprint) (x : QRec) (rest : List QRec)
    (h1 : ¬ normalize x.question = "")
    (h2 : (seen.any fun old => isDupePair maxd (fingerprintOf md5 (normalize x.question)) old) = true) :
    dedupeAux md5 maxd seen (x :: rest) = dedupeAux md5 maxd seen rest := by
  simp [dedupeAux, h1, h2]

theorem dedupeAux_cons_keep (md5 : String → Nat) (maxd : Int)
    (seen : List Fingerprint) (x : QRec) (rest : List QRec)
    (h1 : ¬ normalize x.question = "")
    (h2 : (seen.any fun old => isDupePair maxd (fingerprintOf md5 (normalize x.question)) old) = false) :
    dedupeAux md5 maxd seen (x :: rest) =
      x :: dedupeAux md5 maxd (seen ++ [fingerprintOf md5 (normalize x.question)]) rest := by
  simp [dedupeAux, h1, h2]

theorem dedupeAux_sublist (md5 : String → Nat) (maxd : Int) :
    ∀ (xs : List QRec) (seen : List Fingerprint),
      (dedupeAux md5 maxd seen xs).Sublist xs := by
  intro xs
  induction xs with
  | nil => intro seen; simp [dedupeAux_nil]
  | cons x rest ih =>
    intro seen
    by_cases h1 : normalize x.question = ""
    · rw [dedupeAux_cons_skip_empty md5 maxd seen x rest h1]
      exact (ih seen).cons x
    · cases h2 : (seen.any fun old => isDupePair maxd (fingerprintOf md5 (normalize x.question)) old) with
      | true =>
        rw [dedupeAux_cons_skip_dup md5 maxd seen x rest h1 h2]
        exact (ih seen).cons x
      | false =>
        rw [dedupeAux_cons_keep md5 maxd seen x rest h1 h2]
        exact (ih (seen ++ [fingerprintOf md5 (normalize x.question)])).cons₂ x

theorem dedupeAux_idem (md5 : String → Nat) (maxd : Int) :
    ∀ (xs : List QRec) (seen : List Fingerprint),
      dedupeAux md5 maxd seen (dedupeAux md5 maxd seen xs) = dedupeAux md5 maxd seen xs := by
  intro xs
  induction xs with
  | nil => intro seen; simp [dedupeAux_nil]
  | cons x rest ih =>
    intro seen
    by_cases h1 : normalize x.question = ""
    · rw [dedupeAux_cons_skip_empty md5 maxd seen x rest h1]
      exact ih seen
    · cases h2 : (seen.any fun old => isDupePair maxd (fingerprintOf md5 (normalize x.question)) old) with
      | true =>
        rw [dedupeAux_cons_skip_dup md5 maxd seen x rest h1 h2]
        exact ih seen
      | false =>
        rw [dedupeAux_cons_keep md5 maxd seen x rest h1 h2,
          dedupeAux_cons_keep md5 maxd seen x _ h1 h2]
        exact congrArg (x :: ·) (ih (seen ++ [fingerprintOf md5 (normalize x.question)]))

/-- The fingerprints accumulated while processing `xs` from pool `seen` are
exactly `seen` followed by the fingerprints of the kept items. -/
theorem dedupeAux_snoc (md5 : String → Nat) (maxd : Int) :
    ∀ (xs : List QRec) (seen : List Fingerprint) (y : QRec),
      dedupeAux md5 maxd seen (xs ++ [y]) =
        dedupeAux md5 maxd seen xs ++
          (if normalize y.question = "" then []
           else if ((seen ++ (dedupeAux md5 maxd seen xs).map
                (fun r => fingerprintOf md5 (normalize r.question))).any
                  fun old => isDupePair maxd (fingerprintOf md5 (normalize y.question)) old) = true
             then []
           else [y]) := by
  intro xs
  induction xs with
  | nil =>
    intro seen y
    by_cases h1 : normalize y.question = ""
    · simp [dedupeAux_nil, List.nil_append,
        dedupeAux_cons_skip_empty md5 maxd seen y [] h1, h1]
    · cases h2 : (seen.any fun old => isDupePair maxd (fingerprintOf md5 (normalize y.question)) old) with
      | true =>
        simp only [List.nil_append, dedupeAux_nil, List.map_nil, List.append_nil]
        rw [dedupeAux_cons_skip_dup md5 maxd seen y [] h1 h2, dedupeAux_nil]
        simp [h1, h2]
      | false =>
        simp only [List.nil_append, dedupeAux_nil, List.map_nil, List.append_nil]
        rw [dedupeAux_cons_keep md5 maxd seen y [] h1 h2, dedupeAux_nil]
        simp [h1, h2]
  | cons x rest ih =>
    intro seen y
    by_cases h1 : normalize x.question = ""
    · rw [List.cons_append, dedupeAux_cons_skip_empty md5 maxd seen x _ h1,
        dedupeAux_cons_skip_empty md5 maxd seen x rest h1]
      exact ih seen y
    · cases h2 : (seen.any fun old => isDupePair maxd (fingerprintOf md5 (normalize x.question)) old) with
      | true =>
        rw [List.cons_append, dedupeAux_cons_skip_dup md5 maxd seen x _ h1 h2,
          dedupeAux_cons_skip_dup md5 maxd seen x rest h1 h2]
        exact ih seen y
      | false =>
        rw [List.cons_append, dedupeAux_cons_keep md5 maxd seen x _ h1 h2,
          dedupeAux_cons_keep md5 maxd seen x rest h1 h2,
          ih (seen ++ [fingerprintOf md5 (normalize x.question)]) y]
        simp [List.append_assoc]

theorem dedupeAux_drop_empty (md5 : String → Nat) (maxd : Int) :
    ∀ (xs : List QRec) (seen : List Fingerprint) (y : QRec) (zs : List QRec),
      normalize y.question = "" →
      dedupeAux md5 maxd seen (xs ++ y :: zs) = dedupeAux md5 maxd seen (xs ++ zs) := by
  intro xs
  induction xs with
  | nil =>
    intro seen y zs hy
    rw [List.nil_append, List.nil_append, dedupeAux_cons_skip_empty md5 maxd seen y zs hy]
  | cons x rest ih =>
    intro seen y zs hy
    by_cases h1 : normalize x.question = ""
    · rw [List.cons_append, List.cons_append,
        dedupeAux_cons_skip_empty md5 maxd seen x _ h1,
        dedupeAux_cons_skip_empty md5 maxd seen x _ h1]
      exact ih seen y zs hy
    · cases h2 : (seen.any fun old => isDupePair maxd (fingerprintOf md5 (normalize x.question)) old) with
      | true =>
        rw [List.cons_append, List.cons_append,
          dedupeAux_cons_skip_dup md5 maxd seen x _ h1 h2,
          dedupeAux_cons_skip_dup md5 maxd seen x _ h1 h2]
        exact ih seen y zs hy
      | false =>
        rw [List.cons_append, List.cons_append,
          dedupeAux_cons_keep md5 maxd seen x _ h1 h2,
          dedupeAux_cons_keep md5 maxd seen x _ h1 h2]
        exact congrArg (x :: ·) (ih _ y zs hy)

/-- If some earlier fingerprint in the pool already matches `y`, or some item
before `y` has the same non-empty normalised text, then `y` is dropped. -/
theorem dedupeAux_drop_dup (md5 : String → Nat) (maxd : Int) (hm : 0 ≤ maxd) :
    ∀ (xs : List QRec) (seen : List Fingerprint) (y : QRec) (zs : List QRec),
      ((∃ e ∈ seen, isDupePair maxd (fingerprintOf md5 (normalize y.question)) e = true) ∨
        (∃ x ∈ xs, normalize x.question = normalize y.question ∧ normalize y.question ≠ "")) →
      dedupeAux md5 maxd seen (xs ++ y :: zs) = dedupeAux md5 maxd seen (xs ++ zs) := by
  intro xs
  induction xs with
  | nil =>
    intro seen y zs hpre
    rcases hpre with ⟨e, he, hdup⟩ | ⟨x, hx, _⟩
    · by_cases h1 : normalize y.question = ""
      · rw [List.nil_append, List.nil_append,
          dedupeAux_cons_skip_empty md5 maxd seen y zs h1]
      · have hany : (seen.any fun old =>
            isDupePair maxd (fingerprintOf md5 (normalize y.question)) old) = true :=
          List.any_eq_true.2 ⟨e, he, hdup⟩
        rw [List.nil_append, List.nil_append,
          dedupeAux_cons_skip_dup md5 maxd seen y zs h1 hany]
    · exact absurd hx (List.not_mem_nil x)
  | cons x rest ih =>
    intro seen y zs hpre
    by_cases h1 : normalize x.question = ""
    · rw [List.cons_append, List.cons_append,
        dedupeAux_cons_skip_empty md5 maxd seen x _ h1,
        dedupeAux_cons_skip_empty md5 maxd seen x _ h1]
      refine ih seen y zs ?_
      rcases hpre with h | ⟨x', hx', hnorm⟩
      · exact Or.inl h
      · rcases List.mem_cons.1 hx' with rfl | hx'
        · exact absurd h1 (by rw [hnorm.1]; exact hnorm.2)
        · exact Or.inr ⟨x', hx', hnorm⟩
    · cases h2 : (seen.any fun old => isDupePair maxd (fingerprintOf md5 (normalize x.question)) old) with
      | true =>
        rw [List.cons_append, List.cons_append,
          dedupeAux_cons_skip_dup md5 maxd seen x _ h1 h2,
          dedupeAux_cons_skip_dup md5 maxd seen x _ h1 h2]
        refine ih seen y zs ?_
        rcases hpre with h | ⟨x', hx', hnorm⟩
        · exact Or.inl h
        · rcases List.mem_cons.1 hx' with rfl | hx'
          · rcases List.any_eq_true.1 h2 with ⟨e, he, hdup⟩
            exact Or.inl ⟨e, he, by rwa [← hnorm.1]⟩
          · exact Or.inr ⟨x', hx', hnorm⟩
      | false =>
        rw [List.cons_append, List.cons_append,
          dedupeAux_cons_keep md5 maxd seen x _ h1 h2,
          dedupeAux_cons_keep md5 maxd seen x _ h1 h2]
        refine congrArg (x :: ·) (ih (seen ++ [fingerprintOf md5 (normalize x.question)]) y zs ?_)
        rcases hpre with ⟨e, he, hdup⟩ | ⟨x', hx', hnorm⟩
        · exact Or.inl ⟨e, List.mem_append_left _ he, hdup⟩
        · rcases List.mem_cons.1 hx' with rfl | hx'
          · refine Or.inl ⟨fingerprintOf md5 (normalize x'.question),
              List.mem_append_right _ (List.mem_singleton_self _), ?_⟩
            rw [hnorm.1]
            exact isDupePair_self maxd hm _
          · exact Or.inr ⟨x', hx', hnorm⟩

theorem collapseWsAux_chars :
    ∀ (l : List Char) (b : Bool) (c : Char), c ∈ collapseWsAux b l →
      c = ' ' ∨ (c ∈ l ∧ isPyWs c = false) := by
  intro l
  induction l with
  | nil => intro b c hc; simp [collapseWsAux] at hc
  | cons d rest ih =>
    intro b c hc
    by_cases hd : isPyWs d = true
    · cases b with
      | true =>
        simp only [collapseWsAux, hd, if_pos rfl, if_true] at hc
        rcases ih true c hc with h | ⟨hm, hw⟩
        · exact Or.inl h
        · exact Or.inr ⟨List.mem_cons_of_mem d hm, hw⟩
      | false =>
        simp only [collapseWsAux, hd, if_pos rfl, if_false] at hc
        rcases List.mem_cons.1 hc with rfl | hc
        · exact Or.inl rfl
        · rcases ih true c hc with h | ⟨hm, hw⟩
          · exact Or.inl h
          · exact Or.inr ⟨List.mem_cons_of_mem d hm, hw⟩
    · have hd' : isPyWs d = false := by simpa using hd
      simp only [collapseWsAux, hd', Bool.false_eq_true, if_false] at hc
      rcases List.mem_cons.1 hc with rfl | hc
      · exact Or.inr ⟨List.mem_cons_self c rest, hd'⟩
      · rcases ih false c hc with h | ⟨hm, hw⟩
        · exact Or.inl h
        · exact Or.inr ⟨List.mem_cons_of_mem d hm, hw⟩

theorem pyStrip_mem {s : String} {c : Char} (hc : c ∈ (pyStrip s).toList) :
    c ∈ s.toList := by
  unfold pyStrip at hc
  have h1 : c ∈ ((s.toList.dropWhile (isPyWs ·)).reverse.dropWhile (isPyWs ·)).reverse := hc
  have h2 := List.mem_reverse.1 h1
  have h3 := (List.dropWhile_sublist (l := (s.toList.dropWhile (isPyWs ·)).reverse)
    (p := (isPyWs ·))).subset h2
  have h4 := List.mem_reverse.1 h3
  exact (List.dropWhile_sublist (l := s.toList) (p := (isPyWs ·))).subset h4

/-- When no character of `q` survives `dedupe.normalize`'s character filter
(after lowering), the normalised text is exactly one space per inter-word
gap; in particular it is empty when the stripped text has no whitespace. -/
theorem normalize_shape (q : String)
    (h : ∀ c ∈ q.toList, isKeepChar (pyLowerChar c) = false) :
    normalize q = String.mk (List.replicate (wsGapCount q) ' ') := by
  have hmem : ∀ c ∈ (pyCollapseWs (pyStrip (pyLower q))).toList, isKeepChar c = false := by
    intro c hc
    rcases collapseWsAux_chars (pyStrip (pyLower q)).toList false c hc with rfl | ⟨hm, _⟩
    · decide
    · have hm2 : c ∈ (pyLower q).toList := pyStrip_mem hm
      have hm3 : c ∈ q.toList.map pyLowerChar := hm2
      rcases List.mem_map.1 hm3 with ⟨c0, hc0, rfl⟩
      exact h c0 hc0
  have hfil : (pyCollapseWs (pyStrip (pyLower q))).toList.filter
        (fun c => isKeepChar c || isPyWs c) =
      (pyCollapseWs (pyStrip (pyLower q))).toList.filter (fun c => isPyWs c) := by
    refine List.filter_congr ?_
    intro c hc
    rw [hmem c hc, Bool.false_or]
  have hrep : (pyCollapseWs (pyStrip (pyLower q))).toList.filter (fun c => isPyWs c) =
      List.replicate (wsGapCount q) ' ' := by
    refine List.eq_replicate_iff.2 ⟨rfl, ?_⟩
    intro b hb
    have hb1 := List.mem_filter.1 hb
    rcases collapseWsAux_chars (pyStrip (pyLower q)).toList false b hb1.1 with h | ⟨_, hw⟩
    · exact h
    · rw [hb1.2] at hw; cases hw
  show String.mk ((pyCollapseWs (pyStrip (pyLower q))).toList.filter
    (fun c => isKeepChar c || isPyWs c)) = _
  rw [hfil, hrep]

theorem fingerprintOf_h (md5 : String → Nat) (n : String) :
    (fingerprintOf md5 n).h = simhash md5 n := rfl

theorem fingerprintOf_norm (md5 : String → Nat) (n : String) :
    (fingerprintOf md5 n).norm = n := rfl

theorem fingerprintOf_tokens (md5 : String → Nat) (n : String) :
    (fingerprintOf md5 n).tokens = token_set n := rfl

theorem fingerprintOf_ngrams (md5 : String → Nat) (n : String) :
    (fingerprintOf md5 n).ngrams = char_ngrams n := rfl

/-- Unfolding of the duplicate test on fingerprints of two normalised
texts. -/
theorem isDupePair_iff (maxd : Int) (md5 : String → Nat) (ny nx : String) :
    isDupePair maxd (fingerprintOf md5 ny) (fingerprintOf md5 nx) = true ↔
      ((hammingDistance (simhash md5 ny) (simhash md5 nx) : Int) ≤ maxd ∧
        (ny = nx ∨ (85 : ℚ)/100 ≤ jaccard (token_set ny) (token_set nx) ∨
          (9 : ℚ)/10 ≤ jaccard (char_ngrams ny) (char_ngrams nx))) := by
  simp only [isDupePair, fingerprintOf_h, fingerprintOf_norm, fingerprintOf_tokens,
    fingerprintOf_ngrams, Bool.and_eq_true, Bool.or_eq_true, decide_eq_true_iff, or_assoc]

/-! ### Claim theorems for the deduplication engine -/

/-- Claim C4: for every input list of question items and every
`max_distance`, `dedupe_questions` returns a list no longer than its input,
whose kept items appear in their original relative order (the output is a
sublist of the input), and which is a fixed point of `dedupe_questions`. -/
theorem dedupe_questions_shrink_order_idem :
    ∀ (md5 : String → Nat) (max_distance : Int) (items : List QRec),
      (dedupe_questions md5 items max_distance).length ≤ items.length ∧
      (dedupe_questions md5 items max_distance).Sublist items ∧
      dedupe_questions md5 (dedupe_questions md5 items max_distance) max_distance =
        dedupe_questions md5 items max_distance := by
  intro md5 maxd items
  exact ⟨(dedupeAux_sublist md5 maxd items []).length_le,
    dedupeAux_sublist md5 maxd items [],
    dedupeAux_idem md5 maxd items []⟩

/-- Claim C5: a candidate appended to the input is dropped exactly when its
normalised text is empty or some earlier accepted item (an element of the
deduped prefix) has a simhash within `max_distance` (default 3 at every
call site) and at least one of: equal normalised text, token-set Jaccard at
least 0.85, or character-trigram Jaccard at least 0.9.  In particular the
three-item regression input keeps exactly 2 items, for every token hash. -/
theorem dedupe_questions_duplicate_rule :
    (∀ (md5 : String → Nat) (max_distance : Int) (xs : List QRec) (y : QRec),
      dedupe_questions md5 (xs ++ [y]) max_distance =
        if normalize y.question = "" ∨
            ∃ x ∈ dedupe_questions md5 xs max_distance,
              (hammingDistance (simhash md5 (normalize y.question))
                  (simhash md5 (normalize x.question)) : Int) ≤ max_distance ∧
                (normalize y.question = normalize x.question ∨
                  (85 : ℚ)/100 ≤ jaccard (token_set (normalize y.question))
                    (token_set (normalize x.question)) ∨
                  (9 : ℚ)/10 ≤ jaccard (char_ngrams (normalize y.question))
                    (char_ngrams (normalize x.question)))
          then dedupe_questions md5 xs max_distance
          else dedupe_questions md5 xs max_distance ++ [y]) ∧
    (∀ md5 : String → Nat, (dedupe_questions md5 threeItems 3).length = 2) := by
  constructor
  · intro md5 maxd xs y
    simp only [dedupe_questions]
    rw [dedupeAux_snoc md5 maxd xs [] y]
    by_cases hy : normalize y.question = ""
    · rw [if_pos hy, if_pos (Or.inl hy), List.append_nil]
    · rw [if_neg hy]
      simp only [List.nil_append]
      by_cases hany : (((dedupeAux md5 maxd [] xs).map
          (fun r => fingerprintOf md5 (normalize r.question))).any
            fun old => isDupePair maxd (fingerprintOf md5 (normalize y.question)) old) = true
      · rcases List.any_eq_true.1 hany with ⟨fp', hmem, hdup⟩
        rcases List.mem_map.1 hmem with ⟨x, hx, rfl⟩
        rw [if_pos hany, if_pos (Or.inr ⟨x, hx, (isDupePair_iff maxd md5 _ _).1 hdup⟩),
          List.append_nil]
      · rw [if_neg hany, if_neg ?_]
        rintro (h | ⟨x, hx, hcond⟩)
        · exact hy h
        · exact hany (List.any_eq_true.2 ⟨fingerprintOf md5 (normalize x.question),
            List.mem_map_of_mem _ hx, (isDupePair_iff maxd md5 _ _).2 hcond⟩)
  · intro md5
    have e12 : normalize ({ question := "What is AI" } : QRec).question =
        normalize ({ question := "What is AI?" } : QRec).question := by decide
    have h1 : normalize ({ question := "What is AI?" } : QRec).question ≠ "" := by decide
    have h3 : normalize ({ question := "Define machine learning" } : QRec).question ≠ "" := by
      decide
    rw [show threeItems = [{ question := "What is AI?" }, { question := "What is AI" },
      { question := "Define machine learning" }] from rfl]
    rw [dedupe_questions,
      dedupeAux_cons_keep md5 3 [] _ _ h1 rfl,
      dedupeAux_cons_skip_dup md5 3 _ _ _ (by rw [e12]; exact h1) ?dup,
      dedupeAux_cons_keep md5 3 _ _ _ h3 ?keep,
      dedupeAux_nil]
    · rfl
    case dup =>
      rw [List.nil_append, List.any_cons, List.any_nil, e12]
      rw [isDupePair_self 3 (by norm_num) _]
      rfl
    case keep =>
      rw [List.nil_append, List.any_cons, List.any_nil]
      rw [show isDupePair 3
          (fingerprintOf md5 (normalize ({ question := "Define machine learning" } : QRec).question))
          (fingerprintOf md5 (normalize ({ question := "What is AI?" } : QRec).question)) = false from ?_]
      · rfl
      · simp only [isDupePair, fingerprintOf_norm, fingerprintOf_tokens, fingerprintOf_ngrams]
        rw [decide_eq_false
            (show ¬ normalize ({ question := "Define machine learning" } : QRec).question =
              normalize ({ question := "What is AI?" } : QRec).question by decide),
          decide_eq_false
            (show ¬ (85 : ℚ)/100 ≤ jaccard
                (token_set (normalize ({ question := "Define machine learning" } : QRec).question))
                (token_set (normalize ({ question := "What is AI?" } : QRec).question)) by
              rw [jaccard_eq_zero_of_disjoint _ _ (by decide)]
              norm_num),
          decide_eq_false
            (show ¬ (9 : ℚ)/10 ≤ jaccard
                (char_ngrams (normalize ({ question := "Define machine learning" } : QRec).question))
                (char_ngrams (normalize ({ question := "What is AI?" } : QRec).question)) by
              rw [jaccard_eq_zero_of_disjoint _ _ (by decide)]
              norm_num)]
        exact Bool.and_false _

/-- Claim C9: (a) when every character of a question lowercases outside
`a`-`z0`-`9` (no ASCII alphanumerics), `dedupe.normalize` returns one space
per inter-word gap of the stripped text — the empty string when there is no
internal whitespace; (b) an item with empty normalised text is dropped by
`dedupe_questions` no matter what surrounds it; and (c) under the default
distance, an item whose (non-empty) normalised text equals that of any
earlier item — e.g. two distinct non-Latin questions with the same number
of gaps — is dropped as an exact duplicate. -/
theorem dedupe_non_latin_collapse :
    (∀ q : String, (∀ c ∈ q.toList, isKeepChar (pyLowerChar c) = false) →
        normalize q = String.mk (List.replicate (wsGapCount q) ' ')) ∧
    (∀ (md5 : String → Nat) (max_distance : Int) (xs zs : List QRec) (y : QRec),
        normalize y.question = "" →
        dedupe_questions md5 (xs ++ y :: zs) max_distance =
          dedupe_questions md5 (xs ++ zs) max_distance) ∧
    (∀ (md5 : String → Nat) (xs zs : List QRec) (y : QRec),
        (∃ x ∈ xs, normalize x.question = normalize y.question) →
        normalize y.question ≠ "" →
        dedupe_questions md5 (xs ++ y :: zs) 3 = dedupe_questions md5 (xs ++ zs) 3) := by
  refine ⟨normalize_shape, ?_, ?_⟩
  · intro md5 maxd xs zs y hy
    exact dedupeAux_drop_empty md5 maxd xs [] y zs hy
  · intro md5 xs zs y ⟨x, hx, hnorm⟩ hne
    exact dedupeAux_drop_dup md5 3 (by norm_num) xs [] y zs (Or.inr ⟨x, hx, hnorm, hne⟩)

/-- Witness for C9: a single Cyrillic word normalises to the empty string
(zero gaps) and is dropped even though it is unique, and of two all-Cyrillic
questions with one gap each the later one is dropped. -/
theorem dedupe_non_latin_collapse_witness :
    (normalize "Привет?" = String.mk (List.replicate (wsGapCount "Привет?") ' ') ∧
      wsGapCount "Привет?" = 0) ∧
    dedupe_questions md5z ([{ question := "hello" }] ++ { question := "Привет?" } :: []) 3 =
      dedupe_questions md5z ([{ question := "hello" }] ++ []) 3 ∧
    dedupe_questions md5z
        ([{ question := "Привет мир" }] ++ { question := "Добрый день" } :: []) 3 =
      dedupe_questions md5z ([{ question := "Привет мир" }] ++ []) 3 :=
  ⟨⟨dedupe_non_latin_collapse.1 "Привет?" (by decide), by decide⟩,
    dedupe_non_latin_collapse.2.1 md5z 3 [{ question := "hello" }] [] { question := "Привет?" }
      (by decide),
    dedupe_non_latin_collapse.2.2 md5z [{ question := "Привет мир" }] []
      { question := "Добрый день" }
      ⟨{ question := "Привет мир" }, List.mem_singleton_self _, by decide⟩ (by decide)⟩

/-- Claim C10: when deduplication leaves fewer than `requested_total`
items, `merge_per_file_outputs` appends the whole merged list (rejected
items included) without re-deduplicating and truncates; on a duplicated
pair this emits the exact duplicate; and the worker job runner's
dedupe/backfill step is the same function. -/
theorem merge_backfill_duplicates :
    (∀ (md5 : String → Nat) (outputs : List (List QRec)) (requested_total : Nat),
        (dedupe_questions md5 (outputs.foldl (fun acc items => acc ++ items) []) 3).length <
            requested_total →
        merge_per_file_outputs md5 outputs requested_total =
          (dedupe_questions md5 (outputs.foldl (fun acc items => acc ++ items) []) 3 ++
            outputs.foldl (fun acc items => acc ++ items) []).take requested_total) ∧
    (merge_per_file_outputs md5z [[aiQ, aiQ]] 2 = [aiQ, aiQ]) ∧
    (∀ (md5 : String → Nat) (questions : List QRec) (requested_total : Nat),
        worker_dedupe_backfill md5 questions requested_total =
          merge_per_file_outputs md5 [questions] requested_total) := by
  refine ⟨?_, ?_, ?_⟩
  · intro md5 outputs requested_total h
    rw [merge_per_file_outputs]
    simp only [if_pos h]
  · decide
  · intro md5 questions requested_total
    rw [worker_dedupe_backfill, merge_per_file_outputs]
    simp

/-- Witness for C10: a concrete shortfall instance of the first conjunct. -/
theorem merge_backfill_duplicates_witness :
    (dedupe_questions md5z ([[aiQ, aiQ]].foldl (fun acc items => acc ++ items) []) 3).length < 2 ∧
    merge_per_file_outputs md5z [[aiQ, aiQ]] 2 =
      (dedupe_questions md5z ([[aiQ, aiQ]].foldl (fun acc items => acc ++ items) []) 3 ++
        [[aiQ, aiQ]].foldl (fun acc items => acc ++ items) []).take 2 :=
  ⟨by decide, merge_backfill_duplicates.1 md5z [[aiQ, aiQ]] 2 (by decide)⟩

/-! ### Claim theorems for the invocation layer -/

/-- Helper: when every call fails, `invokeAux` runs to exhaustion. -/
theorem invokeAux_all_fail (client : Nat → Except String String) (msg : Nat → String)
    (h : ∀ i, client i = .error (msg i)) (attempts : Nat) :
    ∀ (remaining i : Nat) (last : Option String), i + remaining = attempts →
      invokeAux client attempts remaining i last =
        (.error (invokeFailMsg attempts
          (if remaining = 0 then last else some (msg (attempts - 1)))), attempts) := by
  intro remaining
  induction remaining with
  | zero =>
    intro i last hik
    have hi : i = attempts := by omega
    simp only [invokeAux]
    simp [hi]
  | succ remaining ih =>
    intro i last hik
    simp only [invokeAux, h i]
    rw [ih (i + 1) (some (msg i)) (by omega)]
    rcases Nat.eq_zero_or_pos remaining with rfl | hr
    · have hi : i = attempts - 1 := by omega
      simp [hi]
    · simp [Nat.pos_iff_ne_zero.1 hr]

/-- Claim C3 (amended): `clients.invoke` performs no message-based
classification at all — for every client whose calls always raise (with a
payment-related message or any other), the client is called exactly
`attempts` times and the invocation then fails, surfacing the last error in
the raised message. -/
theorem invoke_exhausts_attempts :
    ∀ (client : Nat → Except String String) (msg : Nat → String) (attempts : Nat),
      (∀ i, client i = .error (msg i)) →
      invoke client attempts =
        (.error (invokeFailMsg attempts
          (if attempts = 0 then none else some (msg (attempts - 1)))), attempts) := by
  intro client msg attempts h
  rw [invoke, invokeAux_all_fail client msg h attempts attempts 0 none (by omega)]

/-- Witness for C3's amended theorem: a concrete always-failing client. -/
theorem invoke_exhausts_attempts_witness :
    invoke (fun _ => .error "boom") 2 =
      (.error (invokeFailMsg 2 (if 2 = 0 then none else some "boom")), 2) :=
  invoke_exhausts_attempts (fun _ => .error "boom") (fun _ => "boom") 2 (fun _ => rfl)

/-- Counterexample to Claim C3 as stated: a client that always raises a
payment/credit error is called 3 times (the full default attempt budget),
not once — the loop has no fatal-immediate abort. -/
theorem invoke_payment_error_counterexample :
    (invoke (fun _ => .error "402 Payment Required: insufficient credits") 3).2 = 3 ∧
    (invoke (fun _ => .error "402 Payment Required: insufficient credits") 3).2 ≠ 1 ∧
    (invoke (fun _ => .error "402 Payment Required: insufficient credits") 3).1 =
      .error "LLM invoke failed after 3 attempts: 402 Payment Required: insufficient credits" := by
  refine ⟨rfl, by decide, rfl⟩

theorem mget_mset_self : ∀ (m : Metrics) (k : String) (v : MVal),
    mget (mset m k v) k = some v := by
  intro m k v
  induction m with
  | nil => simp [mset, mget]
  | cons p rest ih =>
    by_cases h : p.1 = k
    · simp [mset, mget, h]
    · simp [mset, mget, h, ih]

/-- `to_anki_qa` never emits the working types `mcq` or `tf`: those are
rewritten to `open`, and any other type string (which cannot be `"mcq"` or
`"tf"` or it would have been lowered to itself and rewritten) passes
through. -/
theorem to_anki_qa_type_not_mcq_tf (r : QRec) :
    (to_anki_qa r).type ≠ "mcq" ∧ (to_anki_qa r).type ≠ "tf" := by
  by_cases h1 : pyLower (if r.type = "" then "open" else r.type) = "mcq"
  · constructor <;> · simp [to_anki_qa, h1]
  · by_cases h2 : pyLower (if r.type = "" then "open" else r.type) = "tf"
    · constructor <;> · simp [to_anki_qa, h1, h2]
    · have hres : (to_anki_qa r).type = r.type := by
        simp [to_anki_qa, h1, h2]
      rw [hres]
      constructor
      · intro hmcq
        rw [hmcq] at h1
        exact h1 (by decide)
      · intro htf
        rw [htf] at h2
        exact h2 (by decide)

/-! ### Claim theorems for JSON extraction and item normalisation -/

/-- Claim C6: `extract_first_json` tries, in order, the fenced-block match,
the whole trimmed text when it starts with `[` or `{`, and the scan for the
first decodable bracket, returning `none` when all fail; on the fenced
example it recovers `[1,2]` and from unfenced prose it recovers exactly the
embedded object. -/
theorem extract_first_json_strategy_order :
    (∀ (text : String) (g : List Char), text ≠ "" →
        fenceSearchAux text.toList = some g →
        extract_first_json text = some (pyStrip (String.mk g))) ∧
    (∀ text : String, text ≠ "" →
        fenceSearchAux text.toList = none →
        startsWithBracket (trimmed_candidate text) = true →
        extract_first_json text = some (trimmed_candidate text)) ∧
    (∀ text : String, text ≠ "" →
        fenceSearchAux text.toList = none →
        startsWithBracket (trimmed_candidate text) = false →
        extract_first_json text = scanDecodeAux text.toList) ∧
    extract_first_json "" = none ∧
    extract_first_json "prefix ```json\n[1,2]\n``` suffix" = some "[1,2]" ∧
    extract_first_json "Here is the result: \x7b\"a\":1\x7d and more." =
      some "\x7b\"a\":1\x7d" := by
  refine ⟨?_, ?_, ?_, rfl, by decide, by decide⟩
  · intro text g ht hf
    rw [extract_first_json, if_neg ht, hf]
  · intro text ht hf hb
    rw [extract_first_json, if_neg ht, hf]
    simp [hb]
  · intro text ht hf hb
    rw [extract_first_json, if_neg ht, hf]
    simp [hb]

/-- Witness for C6: the two concrete recoveries, obtained through the
strategy conjuncts at their concrete inputs. -/
theorem extract_first_json_strategy_order_witness :
    extract_first_json "prefix ```json\n[1,2]\n``` suffix" =
      some (pyStrip (String.mk ("[1,2]".toList))) ∧
    extract_first_json "Here is the result: \x7b\"a\":1\x7d and more." =
      scanDecodeAux ("Here is the result: \x7b\"a\":1\x7d and more.").toList :=
  ⟨extract_first_json_strategy_order.1 "prefix ```json\n[1,2]\n``` suffix"
      ("[1,2]".toList) (by decide) (by decide),
    extract_first_json_strategy_order.2.2.1 "Here is the result: \x7b\"a\":1\x7d and more."
      (by decide) (by decide) (by decide)⟩

/-- Claim C7: `safe_json_loads` extracts a candidate, strips trailing commas
before closing brackets, tries strict JSON parsing and then the permissive
literal parse; it raises exactly when no candidate is extracted or both
parses fail, and on every input it either returns a value or raises.  The
permissive parser is universally quantified. -/
theorem safe_json_loads_error_iff :
    (∀ (literal_eval : String → Option JVal) (text : String),
      ((∃ e, safe_json_loads literal_eval text = .error e) ↔
        (extract_first_json text = none ∨ extract_first_json text = some "" ∨
          ∃ raw, extract_first_json text = some raw ∧
            jsonLoads (stripTrailingCommas raw) = none ∧
            literal_eval (stripTrailingCommas raw) = none))) ∧
    (∀ (literal_eval : String → Option JVal) (text raw : String) (v : JVal),
        extract_first_json text = some raw → raw ≠ "" →
        jsonLoads (stripTrailingCommas raw) = some v →
        safe_json_loads literal_eval text = .ok v) ∧
    (∀ (literal_eval : String → Option JVal) (text raw : String) (v : JVal),
        extract_first_json text = some raw → raw ≠ "" →
        jsonLoads (stripTrailingCommas raw) = none →
        literal_eval (stripTrailingCommas raw) = some v →
        safe_json_loads literal_eval text = .ok v) ∧
    (∀ (literal_eval : String → Option JVal) (text : String),
        (∃ v, safe_json_loads literal_eval text = .ok v) ∨
          ∃ e, safe_json_loads literal_eval text = .error e) := by
  refine ⟨?_, ?_, ?_, ?_⟩
  · intro lit text
    rcases hx : extract_first_json text with _ | raw
    · simp [safe_json_loads, hx]
    · by_cases hr : raw = ""
      · subst hr
        simp [safe_json_loads, hx]
      · rcases hj : jsonLoads (stripTrailingCommas raw) with _ | v
        · rcases hl : lit (stripTrailingCommas raw) with _ | v2
          · simp [safe_json_loads, hx, hr, hj, hl]
          · simp [safe_json_loads, hx, hr, hj, hl]
        · simp [safe_json_loads, hx, hr, hj]
  · intro lit text raw v hx hr hj
    rw [safe_json_loads, hx]
    simp [hr, hj]
  · intro lit text raw v hx hr hj hl
    rw [safe_json_loads, hx]
    simp [hr, hj, hl]
  · intro lit text
    rcases h : safe_json_loads lit text with v | e
    · exact Or.inr ⟨v, rfl⟩
    · exact Or.inl ⟨e, rfl⟩

/-- Witness for C7: a trailing-comma array parses strictly after the comma
strip (no fallback needed). -/
theorem safe_json_loads_error_iff_witness :
    safe_json_loads (fun _ => none) "[1,]" = .ok (JVal.arr [JVal.num "1"]) :=
  safe_json_loads_error_iff.2.1 (fun _ => none) "[1,]" "[1,]" (JVal.arr [JVal.num "1"])
    (by decide) (by decide) rfl

/-- Claim C8: an item whose type normalises to `mcq` but whose options list
does not have exactly 4 entries, or whose `correct_index` (after
digit-string coercion) is not an int in `[0,4)`, is emitted — when it
survives at all — as type `open` with `options` and `correct_index`
cleared; conversely every emitted mcq record has exactly 4 options and a
valid index. -/
theorem normalize_mcq_demotion :
    (∀ (difficulty : String) (item : RawItem) (r : QRec),
      pyStrip (pyLower (item.type.getD "open")) = "mcq" →
      ¬ ((item.options.getD []).length = 4 ∧ mcq_ci_ok item.correct_index = true) →
      normalizeQuestionItem difficulty item = some r →
      r.type = "open" ∧ r.options = none ∧ r.correct_index = none) ∧
    (∀ (difficulty : String) (items : List RawItem) (r : QRec),
      r ∈ normalize_question_items items difficulty →
      r.type = "mcq" →
      ∃ opts, r.options = some opts ∧ opts.length = 4 ∧ mcq_ci_ok r.correct_index = true) := by
  constructor
  · intro d item r ht hbad hnorm
    simp only [normalizeQuestionItem] at hnorm
    split_ifs at hnorm
    all_goals first
      | exact Option.noConfusion hnorm
      | (injection hnorm with hh; subst hh; exact ⟨rfl, rfl, rfl⟩)
      | (injection hnorm with hh; subst hh; exact absurd ⟨by omega, by assumption⟩ hbad)
  · intro d items r hmem ht
    rcases List.mem_filterMap.1 hmem with ⟨item, _, hnorm⟩
    simp only [normalizeQuestionItem] at hnorm
    split_ifs at hnorm
    all_goals first
      | exact Option.noConfusion hnorm
      | (injection hnorm with hh; subst hh; refine absurd ht ?_; simp; done)
      | (injection hnorm with hh; subst hh; refine absurd ht ?_; assumption)
      | (injection hnorm with hh
         subst hh
         have hlen : ((item.options.getD []).length = 4) := by omega
         have hopts : item.options = some (item.options.getD []) := by
           rcases ho : item.options with _ | opts
           · simp [ho] at hlen
           · simp [ho]
         exact ⟨item.options.getD [], hopts, hlen, by assumption⟩)

/-- Witness for C8: a three-option mcq item is emitted as a cleared open
record. -/
theorem normalize_mcq_demotion_witness :
    mcqBadRec.type = "open" ∧ mcqBadRec.options = none ∧ mcqBadRec.correct_index = none :=
  normalize_mcq_demotion.1 "easy" mcqBadItem mcqBadRec (by decide) (by decide) (by decide)

/-- **C1** (amended): when the cancellation poll answers `false`, a run of
the Mixer succeeds and stores under the reserved `_result` metrics key the
normalised, deduplicated and backfilled item list truncated to
`requested_total`, whose length is exactly the minimum of `requested_total`
and the number of available items, and no stored item carries the working
types `mcq` or `tf` (they are rewritten by `to_anki_qa`); the original
claim that every item has type `open` is refuted separately: other type
strings pass through unchanged. -/
theorem mixer_result_shape (md5 : String → Nat) (ctx : QAContext)
    (hc : cancelled ctx = Except.ok false) :
    (MixerAgent_run md5 ctx).2 = none ∧
    mget (MixerAgent_run md5 ctx).1.metrics "_result" =
      some (.items ((mixer_final_items md5 ctx).take ctx.requested_total)) ∧
    ((mixer_final_items md5 ctx).take ctx.requested_total).length =
      min ctx.requested_total (mixer_final_items md5 ctx).length ∧
    ∀ r ∈ (mixer_final_items md5 ctx).take ctx.requested_total,
      r.type ≠ "mcq" ∧ r.type ≠ "tf" := by
  refine ⟨?_, ?_, List.length_take _ _, ?_⟩
  · simp [MixerAgent_run, hc]
  · simp [MixerAgent_run, hc, mget_mset_self]
  · intro r hr
    have hmem : r ∈ mixer_final_items md5 ctx := List.mem_of_mem_take hr
    rw [mixer_final_items] at hmem
    rcases List.mem_map.1 hmem with ⟨x, _, hx⟩
    rw [← hx]
    exact to_anki_qa_type_not_mcq_tf x

/-- **C1** witness: the Mixer theorem applied to a concrete context whose
cancellation attribute was explicitly set to `None`. -/
theorem mixer_result_shape_witness :
    cancelled ctxCloze = Except.ok false ∧
    (MixerAgent_run md5z ctxCloze).2 = none ∧
    ((mixer_final_items md5z ctxCloze).take ctxCloze.requested_total).length =
      min ctxCloze.requested_total (mixer_final_items md5z ctxCloze).length :=
  ⟨rfl, (mixer_result_shape md5z ctxCloze rfl).1,
    (mixer_result_shape md5z ctxCloze rfl).2.2.1⟩

/-- **C1** counterexample to the original claim: on a context containing a
single well-formed question whose declared type is `cloze`, the Mixer run
succeeds and the stored result holds that item with `type = "cloze"`, not
`"open"`: `to_anki_qa` only rewrites `mcq` and `tf` and passes every other
type string through. -/
theorem mixer_nonopen_type_counterexample :
    (MixerAgent_run md5z ctxCloze).2 = none ∧
    mget (MixerAgent_run md5z ctxCloze).1.metrics "_result" =
      some (.items [clozeRec]) ∧
    clozeRec.type ≠ "open" := by
  refine ⟨rfl, ?_, by decide⟩
  rfl

/-- **C2** (code bug): `types.QAContext` declares no `should_cancel` field
and `pipeline.generate_questions_for_files` accepts no such argument, while
`agents._cancelled` unconditionally reads `ctx.should_cancel`; hence for
every environment, hash, file list, requested total and difficulty the
pipeline run crashes with `AttributeError` at the first cancellation poll,
performs no LLM call, and `generate_questions_for_files` surfaces the
exception instead of returning a `(questions, metrics)` pair — the claimed
clean early return on cancellation is unreachable because the caller has no
way to supply the predicate. -/
theorem pipeline_missing_should_cancel_crash :
    ∀ (env : Env) (md5 : String → Nat) (files : List FileInput)
      (requested_total : Nat) (difficulty : String),
      (pipeline_run env md5 files requested_total difficulty).2 =
        some PyErr.attributeError ∧
      (pipeline_run env md5 files requested_total difficulty).1.llm_calls = 0 ∧
      generate_questions_for_files env md5 files requested_total difficulty =
        .error PyErr.attributeError := by
  intro env md5 files N d
  have hmain : (pipeline_run env md5 files N d).2 = some PyErr.attributeError ∧
      (pipeline_run env md5 files N d).1.llm_calls = 0 := by
    cases files with
    | nil =>
      rcases env with ⟨rag, emb, nrm, ib, pb, eb, qb⟩
      cases rag <;> rcases emb with e | u <;>
        simp [pipeline_run, stepAgent, SetupAgent_run, NormalizeChunksAgent_run,
          NormalizeChunksAgent_go, IndexPerFileAgent_run, IndexPerFileAgent_go,
          PlannerAgent_run, PlannerAgent_go, EvidenceAgent_run, EvidenceAgent_go,
          QGenAgent_run, QGenAgent_go, VerifierAgent_run, MixerAgent_run,
          cancelled, msetdefault, mset, mget]
    | cons f fs =>
      rcases env with ⟨rag, emb, nrm, ib, pb, eb, qb⟩
      cases rag <;> rcases emb with e | u <;>
        simp [pipeline_run, stepAgent, SetupAgent_run, NormalizeChunksAgent_run,
          NormalizeChunksAgent_go, cancelled, msetdefault, mset, mget]
  obtain ⟨h2, hcalls⟩ := hmain
  refine ⟨h2, hcalls, ?_⟩
  rw [generate_questions_for_files]
  rcases hp : pipeline_run env md5 files N d with ⟨c, err⟩
  rw [hp] at h2
  cases err with
  | none => exact Option.noConfusion h2
  | some e =>
    have he : e = PyErr.attributeError := by
      simpa using h2
    rw [he]

end TgAnki
